import Mathlib

/-!
Verification of the `rampedpyrox` isotope deconvolution core
(`core_functions.py` and `isotoperesult.py`) against its natural-language
specification.  Python values that matter for the dispatch logic are embedded
as a small tagged type `PyVal`; numpy float arrays become `List ℚ` (exact
rationals standing for the reals numpy approximates); fallible Python code
becomes `PyResult`, whose `error` constructor carries the Python exception
raised.
-/

/-- The Python exceptions raised by the embedded code paths. -/
inductive PyErr where
  | valueError : String → PyErr
  | arrayError : String → PyErr
  /-- `LengthError` carries the two lengths interpolated into its message:
  the length of the offending data and the requested length `n`. -/
  | lengthError : ℕ → ℕ → PyErr
  /-- `AttributeError` from accessing a missing DataFrame column attribute;
  carries the attribute name. -/
  | attributeError : String → PyErr
  | indexError : PyErr
  | zeroDivisionError : PyErr
  | keyError : PyErr
  deriving DecidableEq, Repr

/-- Result of a fallible Python computation: the normal return value or the
exception that was raised. -/
inductive PyResult (α : Type) where
  | ok : α → PyResult α
  | error : PyErr → PyResult α
  deriving DecidableEq, Repr

/-- A Python value as dispatched on by `assert_len` / `derivatize`:
an `int`/`float` scalar, a `str` (which *is* a `collections.Sequence`),
a 1-d float array, a 2-d float array (list of rows), or any other object
(neither scalar nor `Sequence` nor `__array__`-bearing). -/
inductive PyVal where
  | scalar : ℚ → PyVal
  | pystr : String → PyVal
  | arr1 : List ℚ → PyVal
  | arr2 : List (List ℚ) → PyVal
  | other : PyVal
  deriving DecidableEq, Repr

/-- `len()` of an array value (first-dimension length); only meaningful on
`arr1`/`arr2`, which is where the embedded code applies it. -/
def pyLen : PyVal → ℕ
  | .arr1 l => l.length
  | .arr2 m => m.length
  | _ => 0

/-- `core_functions.assert_len(data, n)`: scalars become `data*np.ones(n)`;
strings raise `ArrayError`; array-likes of length `≠ n` raise `LengthError`,
of length `n` are returned as float arrays; anything else raises
`ArrayError`. -/
def assert_len (data : PyVal) (n : ℕ) : PyResult PyVal :=
  match data with
  | .scalar q => .ok (.arr1 (List.replicate n q))
  | .pystr _ => .error (.arrayError "Data cannot be a string")
  | .arr1 l =>
      if l.length ≠ n then .error (.lengthError l.length n) else .ok (.arr1 l)
  | .arr2 m =>
      if m.length ≠ n then .error (.lengthError m.length n) else .ok (.arr2 m)
  | .other => .error (.arrayError "data must be scalar or array-like")

/-- The keyword arguments `core_functions.calc_L_curve` forwards to
`model.calc_L_curve`. -/
structure LCurveCall where
  plot : Bool
  nOm : ℕ
  om_max : ℚ
  om_min : ℚ
  deriving DecidableEq, Repr

/-- `core_functions.calc_L_curve(model, timedata, ...)`: a pure keyword
forwarder; the delegated call is represented by the record of keyword
arguments it passes to the model's own `calc_L_curve` method.  The source
forwards `om_max = om_max, om_min = om_max`. -/
def calc_L_curve (plot : Bool) (nOm : ℕ) (om_max : ℚ) (om_min : ℚ) :
    LCurveCall :=
  { plot := plot, nOm := nOm, om_max := om_max, om_min := om_max }

/-- `np.gradient` at index `i` of a 1-d array `y`: one-sided differences at
the two ends, central differences inside. -/
def gradAt (y : List ℚ) (i : ℕ) : ℚ :=
  if i = 0 then y.getD 1 0 - y.getD 0 0
  else if i = y.length - 1 then y.getD i 0 - y.getD (i - 1) 0
  else (y.getD (i + 1) 0 - y.getD (i - 1) 0) / 2

/-- `np.gradient` of a 1-d array. -/
def npGradient1 (y : List ℚ) : List ℚ :=
  (List.range y.length).map (gradAt y)

/-- Row `i` of `np.gradient(m)[0]` (gradient of a 2-d array along axis 0). -/
def gradRow (m : List (List ℚ)) (i : ℕ) : List ℚ :=
  if i = 0 then List.zipWith (fun a b => a - b) (m.getD 1 []) (m.getD 0 [])
  else if i = m.length - 1 then
    List.zipWith (fun a b => a - b) (m.getD i []) (m.getD (i - 1) [])
  else
    (List.zipWith (fun a b => a - b) (m.getD (i + 1) []) (m.getD (i - 1) [])).map
      (fun x => x / 2)

/-- `np.gradient(m)[0]` for a 2-d array `m`. -/
def npGradient2 (m : List (List ℚ)) : List (List ℚ) :=
  (List.range m.length).map (gradRow m)

/-- Columns of a 2-d array (its transpose as a list of columns). -/
def columnsOf (m : List (List ℚ)) : List (List ℚ) :=
  (List.range (m.headD []).length).map (fun j => m.map (fun r => r.getD j 0))

/-- `np.column_stack`: stack a list of equal-length columns into rows. -/
def columnStack (cols : List (List ℚ)) : List (List ℚ) :=
  (List.range (cols.headD []).length).map
    (fun i => cols.map (fun c => c.getD i 0))

/-- Sequencing of fallible Python computations: an uncaught exception
propagates. -/
def pyBind {α β : Type} : PyResult α → (α → PyResult β) → PyResult β
  | .ok a, f => f a
  | .error e, _ => .error e

/-- Apply a pure function to the result of a fallible computation. -/
def pyMap {α β : Type} (f : α → β) : PyResult α → PyResult β
  | .ok a => .ok (f a)
  | .error e => .error e

/-- Map a fallible function over a list, propagating the first raised
exception (Python `for` loop / list comprehension over fallible bodies). -/
def mapExc {α β : Type} (f : α → PyResult β) : List α → PyResult (List β)
  | [] => .ok []
  | x :: xs => pyBind (f x) (fun y => pyMap (fun ys => y :: ys) (mapExc f xs))

/-- The 1-d/1-d core of `derivatize`, as reached by its recursive calls on
matrix columns: re-runs `assert_len(num, len(denom))`, then divides the two
`np.gradient`s elementwise (`np.gradient` itself raises for arrays shorter
than 2). -/
def derivatize1 (num denom : List ℚ) : PyResult (List ℚ) :=
  pyBind (assert_len (.arr1 num) denom.length) (fun _ =>
    if denom.length < 2 then
      .error (.valueError "Shape of array too small to calculate gradient")
    else
      .ok (List.zipWith (fun a b => a / b) (npGradient1 num) (npGradient1 denom)))

/-- `core_functions.derivatize(num, denom)`: rejects a non-array-like `denom`
with `ArrayError` (strings with their own `ArrayError` message), coerces
`num` via `assert_len`, then dispatches on the dimensionalities, recursing
column-wise when exactly one side is 2-d. -/
def derivatize (num denom : PyVal) : PyResult PyVal :=
  match denom with
  | .pystr _ => .error (.arrayError "denom cannot be a string")
  | .scalar _ => .error (.arrayError "denom must be array-like")
  | .other => .error (.arrayError "denom must be array-like")
  | .arr1 d =>
    pyBind (assert_len num d.length) (fun nu =>
      match nu with
      | .arr1 nu1 =>
        if d.length < 2 then
          .error (.valueError "Shape of array too small to calculate gradient")
        else
          .ok (.arr1 (List.zipWith (fun a b => a / b)
            (npGradient1 nu1) (npGradient1 d)))
      | .arr2 nu2 =>
        pyMap (fun cols => .arr2 (columnStack cols))
          (mapExc (fun col => derivatize1 col d) (columnsOf nu2))
      | _ => .error (.arrayError "data must be scalar or array-like"))
  | .arr2 d =>
    pyBind (assert_len num d.length) (fun nu =>
      match nu with
      | .arr2 nu2 =>
        if d.length < 2 then
          .error (.valueError "Shape of array too small to calculate gradient")
        else
          .ok (.arr2 (List.zipWith (List.zipWith (fun a b => a / b))
            (npGradient2 nu2) (npGradient2 d)))
      | .arr1 nu1 =>
        pyMap (fun cols => .arr2 (columnStack cols))
          (mapExc (fun col => derivatize1 nu1 col) (columnsOf d))
      | _ => .error (.arrayError "data must be scalar or array-like"))

/-- The VPDB standard 13C/12C ratio used throughout `isotoperesult.py`. -/
def Rpdb : ℚ := 0.011237

/-- `isotoperesult._d13C_to_R13`. -/
def _d13C_to_R13 (d13C : ℚ) : ℚ := (d13C / 1000 + 1) * Rpdb

/-- `isotoperesult._R13_to_d13C`. -/
def _R13_to_d13C (R13 : ℚ) : ℚ := (R13 / Rpdb - 1) * 1000

/-- `np.round` (round half to even, as numpy does), then `int(...)` of the
already-integral value. -/
def npRound (q : ℚ) : ℤ :=
  if q - Int.floor q < 1 / 2 then Int.floor q
  else if 1 / 2 < q - Int.floor q then Int.floor q + 1
  else if Int.floor q % 2 = 0 then Int.floor q else Int.floor q + 1

/-- The `rp.LaplaceTransform` collaborator as consumed by
`isotoperesult._calc_cont_ptf`: the `nT × nE` operator `A` and the time
grid `t` of length `nT`. -/
structure LapTrans where
  nT : ℕ
  nE : ℕ
  A : ℕ → ℕ → ℚ
  t : ℕ → ℚ

/-- The `rp.EnergyComplex` collaborator as consumed by
`isotoperesult._calc_cont_ptf`: the `nE × nPeak` combined-peak matrix
`peaks` and the combined curve `phi_hat` (length `nE`), both after the
upstream `combine_last` step. -/
structure EnergyComplex where
  nE : ℕ
  nPeak : ℕ
  peaks : ℕ → ℕ → ℚ
  phi_hat : ℕ → ℚ

/-- `np.gradient` at index `i` of the length-`n` series `y`, in index form
(used on the forward-modelled curves, which live on the full time grid). -/
def gradF (n : ℕ) (y : ℕ → ℚ) (i : ℕ) : ℚ :=
  if i = 0 then y 1 - y 0
  else if i = n - 1 then y i - y (i - 1)
  else (y (i + 1) - y (i - 1)) / 2

/-- `g = np.inner(lt.A, ec.phi_hat)`: the forward-modelled combined
cumulative curve at time index `i`. -/
def gFun (lt : LapTrans) (ec : EnergyComplex) (i : ℕ) : ℚ :=
  ∑ e in Finset.range lt.nE, lt.A i e * ec.phi_hat e

/-- Column `p` of `g_peak = np.inner(lt.A, ec.peaks.T)`: the forward-modelled
cumulative curve of peak `p` at time index `i`. -/
def gPeakFun (lt : LapTrans) (ec : EnergyComplex) (p : ℕ) (i : ℕ) : ℚ :=
  ∑ e in Finset.range lt.nE, lt.A i e * ec.peaks e p

/-- `tot = -np.gradient(g)`: combined evolution rate per timestep. -/
def totRate (lt : LapTrans) (ec : EnergyComplex) (i : ℕ) : ℚ :=
  -(gradF lt.nT (gFun lt ec) i)

/-- Column `p` of `peaks = -np.gradient(g_peak, axis=0)`: evolution rate of
peak `p` per timestep. -/
def peakRate (lt : LapTrans) (ec : EnergyComplex) (p : ℕ) (i : ℕ) : ℚ :=
  -(gradF lt.nT (gPeakFun lt ec p) i)

/-- `ind = np.where((t_tg > row[0]) & (t_tg <= row[1]))[0]`: the ascending
time-grid indices whose grid time falls in `(t0, tf]`. -/
def windowInd (lt : LapTrans) (t0 tf : ℚ) : List ℕ :=
  (List.range lt.nT).filter (fun j => decide (t0 < lt.t j) && decide (lt.t j ≤ tf))

/-- One iteration of the fraction loop in `_calc_cont_ptf`: `ind[0]` on an
empty window raises `IndexError`; `np.average` with weights summing to zero
raises `ZeroDivisionError`; otherwise return the fraction's contribution
row, `ind_min`, `ind_max`, and the rounded weighted-average index. -/
def fracStep (lt : LapTrans) (ec : EnergyComplex) (row : ℚ × ℚ) :
    PyResult (List ℚ × ℕ × ℕ × ℤ) :=
  let ind := windowInd lt row.1 row.2
  if ind = [] then .error .indexError
  else
    let wsum := (ind.map (totRate lt ec)).sum
    if wsum = 0 then .error .zeroDivisionError
    else
      let av := (ind.map (fun (j : ℕ) => (j : ℚ) * totRate lt ec j)).sum / wsum
      .ok ((List.range ec.nPeak).map
             (fun p => (ind.map (peakRate lt ec p)).sum / wsum),
           ind.headD 0, ind.getLastD 0, npRound av)

/-- `isotoperesult._calc_cont_ptf(lt, ec, t0_frac, tf_frac)`.  In source
order: `np.column_stack` rejects unequal `t0`/`tf` lengths; `nPeak > nFrac`
raises the underdetermined-problem `ValueError`; `np.inner` rejects an
operator/energy-dimension mismatch; `np.gradient` rejects a time grid
shorter than 2; then the per-fraction loop fills the contribution matrix
and the index arrays. -/
def _calc_cont_ptf (lt : LapTrans) (ec : EnergyComplex)
    (t0_frac tf_frac : List ℚ) :
    PyResult (List (List ℚ) × List ℕ × List ℕ × List ℤ) :=
  if t0_frac.length ≠ tf_frac.length then
    .error (.valueError "all the input array dimensions must match exactly")
  else if ec.nPeak > t0_frac.length then
    .error (.valueError "Under constrained problem! nPeaks > nFractions!!")
  else if lt.nE ≠ ec.nE then
    .error (.valueError "shapes not aligned")
  else if lt.nT < 2 then
    .error (.valueError "Shape of array too small to calculate gradient")
  else
    pyMap
      (fun rs =>
        (rs.map (fun r => r.1), rs.map (fun r => r.2.1),
         rs.map (fun r => r.2.2.1), rs.map (fun r => r.2.2.2)))
      (mapExc (fracStep lt ec) (t0_frac.zip tf_frac))

/-- Python truthiness of a string: non-empty strings are truthy. -/
def pyStrTruthy (s : String) : Bool := !(s == "")

/-- The condition of the column-validation `if` in
`isotoperesult._extract_isotopes`, exactly as written in the source:
`'fraction' and 'd13C' and 'd13C_std' and 'Fm' and 'Fm_std' and
'ug_frac' not in sum_data.columns` — Python's `not in` binds tighter than
`and`, and the five string literals are truthy, so the chain collapses to
the final membership test alone. -/
def columnCheckFails (columns : List String) : Bool :=
  pyStrTruthy "fraction" && pyStrTruthy "d13C" && pyStrTruthy "d13C_std" &&
    pyStrTruthy "Fm" && pyStrTruthy "Fm_std" && !(columns.contains "ug_frac")

/-- The `sum_data` DataFrame consumed by `_extract_isotopes`: its column
names, whether its index is a `DatetimeIndex`, the index timestamps (whole
seconds), and the column data.  Accessing a column whose name is absent
from `columns` raises `AttributeError` (see `SumData.attr`). -/
structure SumData where
  columns : List String
  isDatetimeIndex : Bool
  index : List ℤ
  fraction : List ℤ
  d13C : List ℚ
  d13C_std : List ℚ
  Fm : List ℚ
  Fm_std : List ℚ
  ug_frac : List ℚ

/-- Pandas attribute access `sum_data.<name>`: returns the column data if
the column exists, otherwise raises `AttributeError`. -/
def SumData.attr {α : Type} (sd : SumData) (name : String) (v : α) :
    PyResult α :=
  if sd.columns.contains name then .ok v else .error (.attributeError name)

/-- Positional item access `series[i]`; out of range raises `KeyError`. -/
def seriesGet {α : Type} (l : List α) (i : ℕ) : PyResult α :=
  match l.get? i with
  | some v => .ok v
  | none => .error .keyError

/-- `(sum_data.index - sum_data.index[0]).seconds` for whole-second
timestamps: the seconds component of each timedelta, i.e. the difference
reduced modulo one day. -/
def secsSince (index : List ℤ) : List ℚ :=
  index.map (fun ts => (((ts - index.getD 0 0) % 86400 : ℤ) : ℚ))

/-- `isotoperesult._extract_isotopes(sum_data, mass_rsd, add_noise)`.
The process-global draw `np.random.randn(nF, 3)` made after
`np.random.seed()` is passed in as the function `randn` (row, column ↦
draw), making the source's hidden randomness an explicit argument. -/
def _extract_isotopes (sd : SumData) (mass_rsd : ℚ) (add_noise : Bool)
    (randn : ℕ → ℕ → ℚ) :
    PyResult (List ℚ × List ℚ × List ℚ × List ℚ × List ℚ) :=
  if columnCheckFails sd.columns then
    .error (.valueError "sum_data must have required columns")
  else if !sd.isDatetimeIndex then
    .error (.valueError "sum_data index must be DatetimeIndex")
  else
    pyBind (sd.attr "fraction" sd.fraction) (fun fracCol =>
    pyBind (seriesGet fracCol 0) (fun f0 =>
    if f0 ≠ -1 then
      .error (.valueError "First two rows must be fractions -1 and 0")
    else
    pyBind (seriesGet fracCol 1) (fun f1 =>
    if f1 ≠ 0 then
      .error (.valueError "First two rows must be fractions -1 and 0")
    else
    let secs := secsSince sd.index
    let t0_frac := (secs.drop 1).dropLast
    let tf_frac := secs.drop 2
    let nF := t0_frac.length
    pyBind (sd.attr "ug_frac" (sd.ug_frac.drop 2)) (fun mass0 =>
    pyBind (sd.attr "d13C" (sd.d13C.drop 2)) (fun d13C0 =>
    pyBind (sd.attr "Fm" (sd.Fm.drop 2)) (fun Fm0 =>
    pyBind
      (if add_noise then
        pyBind (sd.attr "d13C_std" (sd.d13C_std.drop 2)) (fun dstd =>
        pyBind (sd.attr "Fm_std" (sd.Fm_std.drop 2)) (fun fstd =>
        .ok (fun i k =>
          if k = 0 then mass0.getD i 0 * mass_rsd
          else if k = 1 then dstd.getD i 0
          else fstd.getD i 0)))
      else .ok (fun _ _ => (0 : ℚ)))
      (fun sigs =>
        let err : ℕ → ℕ → ℚ := fun i k => randn i k * sigs i k
        let mass_frac := (List.range nF).map (fun i => mass0.getD i 0 + err i 0)
        let d13C_frac := (List.range nF).map (fun i => d13C0.getD i 0 + err i 1)
        let Fm_frac := (List.range nF).map (fun i => Fm0.getD i 0 + err i 2)
        let R13_frac := d13C_frac.map _d13C_to_R13
        .ok (t0_frac, tf_frac, mass_frac, R13_frac, Fm_frac))))))))

/-- A concrete two-timepoint forward model (time grid `[0, 1]`, operator
active only at the first timestep), used to instantiate universally
quantified theorems at an evaluable input. -/
def ltW : LapTrans :=
  { nT := 2, nE := 1, A := fun i _ => if i = 0 then 1 else 0, t := fun i => (i : ℚ) }

/-- A concrete single-peak energy complex whose combined curve is the sum of
its (one) peak column. -/
def ecW1 : EnergyComplex :=
  { nE := 1, nPeak := 1, peaks := fun _ _ => 1, phi_hat := fun _ => 1 }

/-- A concrete two-peak energy complex, for the underdetermined
(`nPeak > nFrac`) configuration. -/
def ecW2 : EnergyComplex :=
  { nE := 1, nPeak := 2, peaks := fun _ _ => 1, phi_hat := fun _ => 2 }

/-- A concrete, otherwise well-formed measurement table that is missing the
required `d13C_std` column: DatetimeIndex, sentinel fractions `-1` then `0`,
and two real fractions. -/
def sdC1 : SumData :=
  { columns := ["fraction", "d13C", "Fm", "Fm_std", "ug_frac"]
    isDatetimeIndex := true
    index := [0, 100, 200, 300]
    fraction := [-1, 0, 1, 2]
    d13C := [0, 0, -25, -24]
    d13C_std := []
    Fm := [0, 0, 1, 1]
    Fm_std := []
    ug_frac := [0, 0, 10, 20] }

/-- Summing a map over `List.range` agrees with the `Finset.range` sum. -/
theorem listSum_range (n : ℕ) (f : ℕ → ℚ) :
    ((List.range n).map f).sum = ∑ i in Finset.range n, f i := by
  induction n with
  | zero => simp
  | succ k ih =>
    rw [List.range_succ, List.map_append, List.sum_append, Finset.sum_range_succ, ih]
    simp

/-- A finite sum of list sums swaps into a list sum of finite sums. -/
theorem finsetSum_listMap_swap {β : Type} (s : Finset β) (l : List ℕ)
    (f : β → ℕ → ℚ) :
    ∑ p in s, (l.map (f p)).sum = (l.map (fun j => ∑ p in s, f p j)).sum := by
  induction l with
  | nil => simp
  | cons x xs ih => simp [Finset.sum_add_distrib, ih]

/-- `np.gradient` is linear: the gradient of a finite sum of series is the
sum of the gradients, pointwise. -/
theorem gradF_finsetSum {β : Type} (n : ℕ) (s : Finset β) (f : β → ℕ → ℚ)
    (i : ℕ) :
    gradF n (fun j => ∑ p in s, f p j) i = ∑ p in s, gradF n (f p) i := by
  unfold gradF
  split_ifs
  · simp [Finset.sum_sub_distrib]
  · simp [Finset.sum_sub_distrib]
  · rw [← Finset.sum_div, Finset.sum_sub_distrib]

/-- If `pyMap` produced a value, the underlying computation succeeded. -/
theorem pyMap_eq_ok {α β : Type} (f : α → β) (x : PyResult α) (b : β)
    (h : pyMap f x = .ok b) : ∃ a, x = .ok a ∧ f a = b := by
  cases x with
  | ok a => exact ⟨a, rfl, by simpa [pyMap] using h⟩
  | error e => simp [pyMap] at h

/-- A successful `mapExc` preserves length. -/
theorem mapExc_ok_length {α β : Type} (f : α → PyResult β) (l : List α)
    (r : List β) (h : mapExc f l = .ok r) : r.length = l.length := by
  induction l generalizing r with
  | nil =>
    unfold mapExc at h
    cases h
    rfl
  | cons x xs ih =>
    unfold mapExc at h
    cases hfx : f x with
    | error e => rw [hfx] at h; simp [pyBind] at h
    | ok y =>
      rw [hfx] at h
      simp only [pyBind] at h
      cases hm : mapExc f xs with
      | error e => rw [hm] at h; simp [pyMap] at h
      | ok ys =>
        rw [hm] at h
        simp only [pyMap, PyResult.ok.injEq] at h
        subst h
        simp [ih ys hm]

/-- A successful `mapExc` succeeded elementwise, in order. -/
theorem mapExc_ok_get {α β : Type} (f : α → PyResult β) (l : List α)
    (r : List β) (h : mapExc f l = .ok r) (i : ℕ) (hi : i < l.length)
    (hr : i < r.length) :
    f (l.get ⟨i, hi⟩) = .ok (r.get ⟨i, hr⟩) := by
  induction l generalizing r i with
  | nil => simp at hi
  | cons x xs ih =>
    unfold mapExc at h
    cases hfx : f x with
    | error e => rw [hfx] at h; simp [pyBind] at h
    | ok y =>
      rw [hfx] at h
      simp only [pyBind] at h
      cases hm : mapExc f xs with
      | error e => rw [hm] at h; simp [pyMap] at h
      | ok ys =>
        rw [hm] at h
        simp only [pyMap, PyResult.ok.injEq] at h
        subst h
        cases i with
        | zero => simpa using hfx
        | succ k => exact ih ys hm k (by simpa using hi) (by simpa using hr)

/-- Every element of a successful `mapExc` result comes from a successful
application on some input element. -/
theorem mapExc_mem_ok {α β : Type} (f : α → PyResult β) (l : List α)
    (r : List β) (h : mapExc f l = .ok r) (y : β) (hy : y ∈ r) :
    ∃ x ∈ l, f x = .ok y := by
  induction l generalizing r with
  | nil =>
    unfold mapExc at h
    cases h
    simp at hy
  | cons a as ih =>
    unfold mapExc at h
    cases hfa : f a with
    | error e => rw [hfa] at h; simp [pyBind] at h
    | ok v =>
      rw [hfa] at h
      simp only [pyBind] at h
      cases hm : mapExc f as with
      | error e => rw [hm] at h; simp [pyMap] at h
      | ok vs =>
        rw [hm] at h
        simp only [pyMap, PyResult.ok.injEq] at h
        subst h
        rcases List.mem_cons.mp hy with hcase | hcase
        · exact ⟨a, List.mem_cons_self a as, hcase ▸ hfa⟩
        · obtain ⟨x, hxl, hfx⟩ := ih vs hm hcase
          exact ⟨x, List.mem_cons_of_mem a hxl, hfx⟩

/-- If some element makes `f` raise, `mapExc` raises. -/
theorem mapExc_error_of_mem {α β : Type} (f : α → PyResult β) (l : List α)
    (x : α) (hx : x ∈ l) (e : PyErr) (hfx : f x = .error e) :
    ∃ e2, mapExc f l = .error e2 := by
  induction l with
  | nil => simp at hx
  | cons y ys ih =>
    rcases List.mem_cons.mp hx with hcase | hcase
    · subst hcase
      refine ⟨e, ?_⟩
      unfold mapExc
      rw [hfx]
      rfl
    · cases hfy : f y with
      | error e3 =>
        refine ⟨e3, ?_⟩
        unfold mapExc
        rw [hfy]
        rfl
      | ok v =>
        obtain ⟨e2, hm⟩ := ih hcase
        refine ⟨e2, ?_⟩
        unfold mapExc
        rw [hfy]
        show pyMap (fun ys1 => v :: ys1) (mapExc f ys) = _
        rw [hm]
        rfl

/-- The window indices are strictly sorted (they filter `List.range`). -/
theorem windowInd_sorted (lt : LapTrans) (a b : ℚ) :
    List.Sorted (· < ·) (windowInd lt a b) :=
  (List.sorted_lt_range lt.nT).filter _

/-- For a strictly sorted list, the default-headed head bounds every
member from below. -/
theorem sorted_headD_le (l : List ℕ) (hl : List.Sorted (· < ·) l) :
    ∀ x ∈ l, l.headD 0 ≤ x := by
  cases l with
  | nil => intro x hx; simp at hx
  | cons a t =>
    intro x hx
    rcases List.mem_cons.mp hx with h | h
    · simp [h]
    · simpa using le_of_lt ((List.sorted_cons.mp hl).1 x h)

/-- If every element of a sorted list dominates `a`, so does its
default-`a` last element. -/
theorem self_le_getLastD (t : List ℕ) (a : ℕ) (h : ∀ y ∈ t, a ≤ y)
    (ht : List.Sorted (· < ·) t) : a ≤ t.getLastD a := by
  induction t generalizing a with
  | nil => simp
  | cons b u ih =>
    rw [List.getLastD_cons]
    have hb : a ≤ b := h b (List.mem_cons_self b u)
    have hu : ∀ y ∈ u, b ≤ y := fun y hy =>
      le_of_lt ((List.sorted_cons.mp ht).1 y hy)
    exact le_trans hb (ih b hu ht.of_cons)

/-- For a strictly sorted list, the default-headed last element bounds
every member from above. -/
theorem sorted_le_getLastD :
    ∀ (l : List ℕ) (d : ℕ), List.Sorted (· < ·) l →
      ∀ x ∈ l, x ≤ l.getLastD d := by
  intro l
  induction l with
  | nil => intro d _ x hx; simp at hx
  | cons a t ih =>
    intro d hl x hx
    rw [List.getLastD_cons]
    rcases List.mem_cons.mp hx with h | h
    · subst h
      exact self_le_getLastD t x
        (fun y hy => le_of_lt ((List.sorted_cons.mp hl).1 y hy)) hl.of_cons
    · exact ih a hl.of_cons x h

/-- A list sum of non-negative weights is non-negative. -/
theorem listSum_nonneg (l : List ℕ) (w : ℕ → ℚ) (hw : ∀ j ∈ l, 0 ≤ w j) :
    0 ≤ (l.map w).sum := by
  induction l with
  | nil => simp
  | cons a t ih =>
    simp only [List.map_cons, List.sum_cons]
    have h1 := hw a (List.mem_cons_self a t)
    have h2 := ih (fun j hj => hw j (List.mem_cons_of_mem a hj))
    linarith

/-- Index-weighted sum bounded above by a uniform index bound. -/
theorem listSum_weight_le (l : List ℕ) (w : ℕ → ℚ) (c : ℚ)
    (hw : ∀ j ∈ l, 0 ≤ w j) (hc : ∀ j ∈ l, (j : ℚ) ≤ c) :
    (l.map (fun (j : ℕ) => (j : ℚ) * w j)).sum ≤ c * (l.map w).sum := by
  induction l with
  | nil => simp
  | cons a t ih =>
    simp only [List.map_cons, List.sum_cons, mul_add]
    have h1 : (a : ℚ) * w a ≤ c * w a :=
      mul_le_mul_of_nonneg_right (hc a (List.mem_cons_self a t))
        (hw a (List.mem_cons_self a t))
    have h2 := ih (fun j hj => hw j (List.mem_cons_of_mem a hj))
      (fun j hj => hc j (List.mem_cons_of_mem a hj))
    linarith

/-- Index-weighted sum bounded below by a uniform index bound. -/
theorem listSum_weight_ge (l : List ℕ) (w : ℕ → ℚ) (c : ℚ)
    (hw : ∀ j ∈ l, 0 ≤ w j) (hc : ∀ j ∈ l, c ≤ (j : ℚ)) :
    c * (l.map w).sum ≤ (l.map (fun (j : ℕ) => (j : ℚ) * w j)).sum := by
  induction l with
  | nil => simp
  | cons a t ih =>
    simp only [List.map_cons, List.sum_cons, mul_add]
    have h1 : c * w a ≤ (a : ℚ) * w a :=
      mul_le_mul_of_nonneg_right (hc a (List.mem_cons_self a t))
        (hw a (List.mem_cons_self a t))
    have h2 := ih (fun j hj => hw j (List.mem_cons_of_mem a hj))
      (fun j hj => hc j (List.mem_cons_of_mem a hj))
    linarith

/-- `npRound` rounds to the floor or to the floor plus one. -/
theorem npRound_cases (q : ℚ) : npRound q = ⌊q⌋ ∨ npRound q = ⌊q⌋ + 1 := by
  unfold npRound
  split_ifs <;> simp

/-- An integer lower bound survives `npRound`. -/
theorem intCast_le_npRound (m : ℤ) (q : ℚ) (h : (m : ℚ) ≤ q) :
    m ≤ npRound q := by
  have h1 : m ≤ ⌊q⌋ := Int.le_floor.mpr h
  rcases npRound_cases q with h2 | h2 <;> omega

/-- An integer upper bound survives `npRound`. -/
theorem npRound_le_intCast (M : ℤ) (q : ℚ) (h : q ≤ (M : ℚ)) :
    npRound q ≤ M := by
  have hfl : ⌊q⌋ ≤ M := by simpa using Int.floor_le_floor h
  unfold npRound
  split_ifs with h1 h2 h3
  · exact hfl
  · have hlt : (⌊q⌋ : ℚ) < q := by linarith
    have hMlt : ⌊q⌋ < M := Int.cast_lt.mp (lt_of_lt_of_le hlt h)
    omega
  · exact hfl
  · have hge : (1 : ℚ) / 2 ≤ q - ⌊q⌋ := not_lt.mp h1
    have hlt : (⌊q⌋ : ℚ) < q := by linarith
    have hMlt : ⌊q⌋ < M := Int.cast_lt.mp (lt_of_lt_of_le hlt h)
    omega

/-- `getD` of a mapped list at an in-range index. -/
theorem getD_map_get {α β : Type} (f : α → β) (l : List α) (i : ℕ)
    (h : i < l.length) (d : β) :
    (l.map f).getD i d = f (l.get ⟨i, h⟩) := by
  simp [List.getD_eq_getElem?_getD, List.getElem?_map, List.getElem?_eq_getElem h,
    List.get_eq_getElem]

/-- C5: converting `d13C` to `R13` via `_d13C_to_R13` and back via
`_R13_to_d13C` returns the original value, exactly, over exact rational
arithmetic, and likewise in the `R13 → d13C → R13` direction, with
`Rpdb = 0.011237`. -/
theorem d13C_R13_roundtrip (d R : ℚ) :
    _R13_to_d13C (_d13C_to_R13 d) = d ∧ _d13C_to_R13 (_R13_to_d13C R) = R := by
  have h : Rpdb ≠ 0 := by norm_num [Rpdb]
  constructor
  · unfold _R13_to_d13C _d13C_to_R13
    field_simp
    ring
  · unfold _d13C_to_R13 _R13_to_d13C
    field_simp
    ring

/-- C2 counterexample: at the concrete invocation with `om_max = 100` and
`om_min = 1/1000`, the delegated call does *not* receive `om_min`'s value as
both bounds — the forwarded `om_min` keyword is `100`, `om_max`'s value. -/
theorem calc_L_curve_om_min_claim_false :
    ¬ ((calc_L_curve false 150 100 (1 / 1000)).om_max = 1 / 1000 ∧
       (calc_L_curve false 150 100 (1 / 1000)).om_min = 1 / 1000) := by
  intro h
  have h2 := h.2
  norm_num [calc_L_curve] at h2

/-- C2 amended: for every invocation, `calc_L_curve`'s keyword forwarding
passes `om_max`'s value as both the `om_max` and the `om_min` keyword of the
delegated call to the model's own `calc_L_curve` method. -/
theorem calc_L_curve_forwards_om_max_as_both (plot : Bool) (nOm : ℕ)
    (om_max om_min : ℚ) :
    (calc_L_curve plot nOm om_max om_min).om_max = om_max ∧
    (calc_L_curve plot nOm om_max om_min).om_min = om_max :=
  ⟨rfl, rfl⟩

/-- C3 counterexample: at concrete inputs, a scalar denominator — with an
array numerator, and with a scalar numerator — makes `derivatize` raise
`ArrayError` rather than return an all-infinite (resp. all-NaN) result. -/
theorem derivatize_scalar_cases_raise :
    derivatize (PyVal.arr1 [1, 2]) (PyVal.scalar 3) =
      .error (.arrayError "denom must be array-like") ∧
    derivatize (PyVal.scalar 1) (PyVal.scalar 1) =
      .error (.arrayError "denom must be array-like") :=
  ⟨rfl, rfl⟩

/-- C3 amended: for every scalar (non-array-like) denominator and every
numerator — scalar or not — `derivatize` raises
`ArrayError("denom must be array-like")`; no all-infinite or all-NaN result
is ever produced for a scalar denominator. -/
theorem derivatize_scalar_denom_raises (num : PyVal) (q : ℚ) :
    derivatize num (PyVal.scalar q) =
      .error (.arrayError "denom must be array-like") :=
  rfl

/-- C4: `assert_len` returns a float array of length exactly `n` on every
valid input — a scalar becomes the constant array of the repeated value, an
array-like of length `n` is returned as-is — while a string or a
non-scalar, non-array-like input raises `ArrayError` and an array-like of
length `≠ n` raises `LengthError`. -/
theorem assert_len_spec (n : ℕ) (q : ℚ) (s : String) (l : List ℚ)
    (m : List (List ℚ)) :
    (assert_len (PyVal.scalar q) n = .ok (PyVal.arr1 (List.replicate n q)) ∧
      pyLen (PyVal.arr1 (List.replicate n q)) = n) ∧
    assert_len (PyVal.pystr s) n = .error (.arrayError "Data cannot be a string") ∧
    assert_len PyVal.other n =
      .error (.arrayError "data must be scalar or array-like") ∧
    (l.length = n → assert_len (PyVal.arr1 l) n = .ok (PyVal.arr1 l)) ∧
    (l.length ≠ n →
      assert_len (PyVal.arr1 l) n = .error (.lengthError l.length n)) ∧
    (m.length = n → assert_len (PyVal.arr2 m) n = .ok (PyVal.arr2 m)) ∧
    (m.length ≠ n →
      assert_len (PyVal.arr2 m) n = .error (.lengthError m.length n)) := by
  refine ⟨⟨rfl, by simp [pyLen]⟩, rfl, rfl, ?_, ?_, ?_, ?_⟩ <;>
    intro h <;> simp [assert_len, h]

/-- C4 witness: `assert_len` evaluated on concrete matching and mismatched
array-likes of both dimensionalities. -/
theorem assert_len_spec_witness :
    assert_len (PyVal.arr1 [1, 2, 3]) 3 = .ok (PyVal.arr1 [1, 2, 3]) ∧
    assert_len (PyVal.arr1 [1, 2]) 3 = .error (.lengthError 2 3) ∧
    assert_len (PyVal.arr2 [[1], [2]]) 3 = .error (.lengthError 2 3) ∧
    assert_len (PyVal.arr2 [[1], [2], [3]]) 3 = .ok (PyVal.arr2 [[1], [2], [3]]) := by
  refine ⟨?_, ?_, ?_, ?_⟩
  · exact (assert_len_spec 3 0 "" [1, 2, 3] []).2.2.2.1 rfl
  · exact (assert_len_spec 3 0 "" [1, 2] []).2.2.2.2.1 (by decide)
  · exact (assert_len_spec 3 0 "" [] [[1], [2]]).2.2.2.2.2.2 (by decide)
  · exact (assert_len_spec 3 0 "" [] [[1], [2], [3]]).2.2.2.2.2.1 rfl

/-- C6: whenever the (equal-length) fraction windows are outnumbered by the
combined peaks, `_calc_cont_ptf` raises the underdetermined-problem
`ValueError`, before any forward-model computation, whatever the forward
model and peak data. -/
theorem cont_ptf_underdetermined (lt : LapTrans) (ec : EnergyComplex)
    (t0_frac tf_frac : List ℚ)
    (hlen : t0_frac.length = tf_frac.length)
    (hpf : t0_frac.length < ec.nPeak) :
    _calc_cont_ptf lt ec t0_frac tf_frac =
      .error (.valueError "Under constrained problem! nPeaks > nFractions!!") := by
  unfold _calc_cont_ptf
  rw [if_neg (by omega), if_pos hpf]

/-- C6 witness: the two-peak complex against a single fraction. -/
theorem cont_ptf_underdetermined_witness :
    _calc_cont_ptf ltW ecW2 [0] [1] =
      .error (.valueError "Under constrained problem! nPeaks > nFractions!!") :=
  cont_ptf_underdetermined ltW ecW2 [0] [1] rfl (by decide)

/-- C1 (code bug): a table missing the required `d13C_std` column — but
containing `ug_frac` — passes the source's column check (its `and`-chained
condition tests only `ug_frac` membership), and with `add_noise = False`
the missing column is never accessed, so `_extract_isotopes` completes with
no error at all instead of raising a validation error. -/
theorem extract_missing_required_column_no_error :
    sdC1.columns.contains "d13C_std" = false ∧
    _extract_isotopes sdC1 (1 / 100) false (fun _ _ => 0) =
      .ok ([100, 200], [200, 300], [10, 20],
           [_d13C_to_R13 (-25), _d13C_to_R13 (-24)], [1, 1]) := by
  constructor
  · decide
  · simp [_extract_isotopes, columnCheckFails, pyStrTruthy, SumData.attr,
      seriesGet, secsSince, sdC1, pyBind]
    simp [show List.range 2 = [0, 1] from rfl, Function.comp]

/-- Concrete evaluation of the contribution mapper on the two-point model:
one fraction windowing the second timepoint, one peak carrying the whole
signal. -/
theorem calc_cont_ptf_ltW_eval :
    _calc_cont_ptf ltW ecW1 [0] [1] = .ok ([[1]], [1], [1], [1]) := by
  have hw : windowInd ltW 0 1 = [1] := by decide
  have htot : totRate ltW ecW1 1 = 1 := by norm_num [totRate, gradF, gFun, ltW, ecW1]
  have hpk : peakRate ltW ecW1 0 1 = 1 := by
    norm_num [peakRate, gradF, gPeakFun, ltW, ecW1]
  have hnp : npRound 1 = 1 := by norm_num [npRound]
  have hne : ltW.nE = 1 ∧ ecW1.nE = 1 ∧ ecW1.nPeak = 1 ∧ ltW.nT = 2 := by decide
  simp [_calc_cont_ptf, mapExc, fracStep, pyBind, pyMap, hw, htot, hpk, hnp,
    hne.1, hne.2.1, hne.2.2.1, hne.2.2.2]
  have hr1 : List.range 1 = [0] := rfl
  rw [hr1]
  simp [hpk]

/-- The per-peak rates sum to the combined rate at every timepoint when the
combined curve is the column-wise sum of the peak matrix. -/
theorem peakRate_sum_eq_totRate (lt : LapTrans) (ec : EnergyComplex)
    (hphi : ∀ e < lt.nE,
      ec.phi_hat e = ∑ p in Finset.range ec.nPeak, ec.peaks e p) (j : ℕ) :
    ∑ p in Finset.range ec.nPeak, peakRate lt ec p j = totRate lt ec j := by
  have hfun : (fun i => ∑ p in Finset.range ec.nPeak, gPeakFun lt ec p i) =
      gFun lt ec := by
    funext i
    unfold gFun gPeakFun
    rw [Finset.sum_comm]
    apply Finset.sum_congr rfl
    intro e he
    rw [hphi e (Finset.mem_range.mp he), Finset.mul_sum]
  unfold peakRate totRate
  rw [Finset.sum_neg_distrib, ← gradF_finsetSum, hfun]

/-- C7: whenever the combined curve equals the column-wise sum of the
per-peak curves and `_calc_cont_ptf` succeeds (so every fraction window is
non-empty with nonzero combined-rate sum), every row of the contribution
matrix sums to exactly 1. -/
theorem cont_ptf_rows_sum_one (lt : LapTrans) (ec : EnergyComplex)
    (t0_frac tf_frac : List ℚ) (cont : List (List ℚ)) (mins maxs : List ℕ)
    (wghs : List ℤ)
    (hphi : ∀ e < lt.nE,
      ec.phi_hat e = ∑ p in Finset.range ec.nPeak, ec.peaks e p)
    (hok : _calc_cont_ptf lt ec t0_frac tf_frac = .ok (cont, mins, maxs, wghs)) :
    ∀ row ∈ cont, row.sum = 1 := by
  intro row hrow
  unfold _calc_cont_ptf at hok
  split_ifs at hok
  obtain ⟨rs, hm, hg⟩ := pyMap_eq_ok _ _ _ hok
  simp only [Prod.mk.injEq] at hg
  obtain ⟨hc, hmn, hmx, hwg⟩ := hg
  rw [← hc] at hrow
  obtain ⟨r, hrs, hr1⟩ := List.mem_map.mp hrow
  obtain ⟨pair, hpl, hstep⟩ := mapExc_mem_ok _ _ _ hm r hrs
  simp only [fracStep] at hstep
  split_ifs at hstep with hind hws
  simp only [PyResult.ok.injEq] at hstep
  rw [← hr1, ← hstep]
  rw [listSum_range, ← Finset.sum_div, finsetSum_listMap_swap]
  have hkey : (fun j => ∑ p in Finset.range ec.nPeak, peakRate lt ec p j) =
      totRate lt ec := funext (peakRate_sum_eq_totRate lt ec hphi)
  rw [hkey, div_self hws]

/-- C7 witness: the single-peak complex, whose combined curve is its one
peak column, on the concrete two-point model. -/
theorem cont_ptf_rows_sum_one_witness :
    (∀ e < ltW.nE,
      ecW1.phi_hat e = ∑ p in Finset.range ecW1.nPeak, ecW1.peaks e p) ∧
    _calc_cont_ptf ltW ecW1 [0] [1] = .ok ([[1]], [1], [1], [1]) ∧
    ∀ row ∈ [[(1 : ℚ)]], row.sum = 1 := by
  have hphi : ∀ e < ltW.nE,
      ecW1.phi_hat e = ∑ p in Finset.range ecW1.nPeak, ecW1.peaks e p := by
    intro e he
    simp [ltW, ecW1]
  exact ⟨hphi, calc_cont_ptf_ltW_eval,
    cont_ptf_rows_sum_one ltW ecW1 [0] [1] [[1]] [1] [1] [1] hphi
      calc_cont_ptf_ltW_eval⟩

/-- C8: whenever some fraction's `(t0, tf]` window contains no time-grid
point, `_calc_cont_ptf` raises — the empty window is never silently
tolerated, and (the construction sequence running `_calc_cont_ptf` before
both regressions) no regression is reached. -/
theorem cont_ptf_empty_window_errors (lt : LapTrans) (ec : EnergyComplex)
    (t0_frac tf_frac : List ℚ) (i : ℕ)
    (hi : i < (t0_frac.zip tf_frac).length)
    (hwin : windowInd lt ((t0_frac.zip tf_frac).get ⟨i, hi⟩).1
      ((t0_frac.zip tf_frac).get ⟨i, hi⟩).2 = []) :
    ∃ e, _calc_cont_ptf lt ec t0_frac tf_frac = .error e := by
  unfold _calc_cont_ptf
  split_ifs
  · exact ⟨_, rfl⟩
  · exact ⟨_, rfl⟩
  · exact ⟨_, rfl⟩
  · exact ⟨_, rfl⟩
  · have hstep : fracStep lt ec ((t0_frac.zip tf_frac).get ⟨i, hi⟩) =
        .error .indexError := by
      simp only [fracStep]
      rw [hwin]
      simp
    obtain ⟨e2, hm⟩ := mapExc_error_of_mem (fracStep lt ec)
      (t0_frac.zip tf_frac) _ (List.get_mem _ _ _) _ hstep
    rw [hm]
    exact ⟨e2, rfl⟩

/-- C8 witness: a fraction window `(5, 6]` strictly beyond the two-point
time grid `[0, 1]` is empty and makes the contribution mapper raise. -/
theorem cont_ptf_empty_window_errors_witness :
    windowInd ltW (([(5 : ℚ)].zip [(6 : ℚ)]).get ⟨0, by decide⟩).1
        (([(5 : ℚ)].zip [(6 : ℚ)]).get ⟨0, by decide⟩).2 = [] ∧
    ∃ e, _calc_cont_ptf ltW ecW1 [5] [6] = .error e :=
  ⟨by decide,
   cont_ptf_empty_window_errors ltW ecW1 [5] [6] 0 (by decide) (by decide)⟩

/-- C10: for a fraction whose non-empty index window carries non-negative
combined evolution rates (with positive sum, forced by success), the rounded
mass-weighted index `ind_wgh` lies between `ind_min` and `ind_max`. -/
theorem ind_wgh_between_min_max (lt : LapTrans) (ec : EnergyComplex)
    (t0_frac tf_frac : List ℚ) (cont : List (List ℚ)) (mins maxs : List ℕ)
    (wghs : List ℤ) (i : ℕ)
    (hok : _calc_cont_ptf lt ec t0_frac tf_frac = .ok (cont, mins, maxs, wghs))
    (hi : i < (t0_frac.zip tf_frac).length)
    (hnn : ∀ j ∈ windowInd lt ((t0_frac.zip tf_frac).get ⟨i, hi⟩).1
        ((t0_frac.zip tf_frac).get ⟨i, hi⟩).2, 0 ≤ totRate lt ec j) :
    (mins.getD i 0 : ℤ) ≤ wghs.getD i 0 ∧
      wghs.getD i 0 ≤ (maxs.getD i 0 : ℤ) := by
  unfold _calc_cont_ptf at hok
  split_ifs at hok
  obtain ⟨rs, hm, hg⟩ := pyMap_eq_ok _ _ _ hok
  simp only [Prod.mk.injEq] at hg
  obtain ⟨hc, hmn, hmx, hwg⟩ := hg
  have hlenr : rs.length = (t0_frac.zip tf_frac).length := mapExc_ok_length _ _ _ hm
  have hri : i < rs.length := by omega
  have hstep := mapExc_ok_get _ _ _ hm i hi hri
  simp only [fracStep] at hstep
  split_ifs at hstep with hind hws
  simp only [PyResult.ok.injEq] at hstep
  set wInd := windowInd lt ((t0_frac.zip tf_frac).get ⟨i, hi⟩).1
    ((t0_frac.zip tf_frac).get ⟨i, hi⟩).2 with hwInd
  set wsum := (wInd.map (totRate lt ec)).sum with hwsum
  set av := (wInd.map (fun (j : ℕ) => (j : ℚ) * totRate lt ec j)).sum / wsum
    with hav
  have hmins : mins.getD i 0 = wInd.headD 0 := by
    rw [← hmn, getD_map_get (fun r => r.2.1) rs i hri 0, ← hstep]
  have hmaxs : maxs.getD i 0 = wInd.getLastD 0 := by
    rw [← hmx, getD_map_get (fun r => r.2.2.1) rs i hri 0, ← hstep]
  have hwghs : wghs.getD i 0 = npRound av := by
    rw [← hwg, getD_map_get (fun r => r.2.2.2) rs i hri 0, ← hstep]
  have hsorted := windowInd_sorted lt ((t0_frac.zip tf_frac).get ⟨i, hi⟩).1
    ((t0_frac.zip tf_frac).get ⟨i, hi⟩).2
  rw [← hwInd] at hsorted
  have hsumpos : 0 < wsum :=
    lt_of_le_of_ne (listSum_nonneg _ _ hnn) (Ne.symm hws)
  have hhead : ∀ j ∈ wInd, wInd.headD 0 ≤ j := sorted_headD_le _ hsorted
  have hlast : ∀ j ∈ wInd, j ≤ wInd.getLastD 0 := fun j hj =>
    sorted_le_getLastD wInd 0 hsorted j hj
  have hlow : ((wInd.headD 0 : ℕ) : ℚ) ≤ av := by
    rw [hav, le_div_iff₀ hsumpos]
    exact listSum_weight_ge wInd (totRate lt ec) _ hnn
      (fun j hj => Nat.cast_le.mpr (hhead j hj))
  have hup : av ≤ ((wInd.getLastD 0 : ℕ) : ℚ) := by
    rw [hav, div_le_iff₀ hsumpos]
    exact listSum_weight_le wInd (totRate lt ec) _ hnn
      (fun j hj => Nat.cast_le.mpr (hlast j hj))
  constructor
  · rw [hmins, hwghs]
    exact intCast_le_npRound _ _ (by push_cast at hlow ⊢; exact hlow)
  · rw [hwghs, hmaxs]
    exact npRound_le_intCast _ _ (by push_cast at hup ⊢; exact hup)

/-- C10 witness: on the concrete two-point model the single window index is
`1`, the combined rate there is non-negative, and `ind_min ≤ ind_wgh ≤
ind_max` evaluates to `1 ≤ 1 ≤ 1`. -/
theorem ind_wgh_between_min_max_witness :
    _calc_cont_ptf ltW ecW1 [0] [1] = .ok ([[1]], [1], [1], [1]) ∧
    (∀ j ∈ windowInd ltW (([(0 : ℚ)].zip [(1 : ℚ)]).get ⟨0, by decide⟩).1
        (([(0 : ℚ)].zip [(1 : ℚ)]).get ⟨0, by decide⟩).2,
      0 ≤ totRate ltW ecW1 j) ∧
    (((1 : ℤ) ≤ 1) ∧ ((1 : ℤ) ≤ 1)) := by
  have hnn : ∀ j ∈ windowInd ltW (([(0 : ℚ)].zip [(1 : ℚ)]).get ⟨0, by decide⟩).1
      (([(0 : ℚ)].zip [(1 : ℚ)]).get ⟨0, by decide⟩).2,
      0 ≤ totRate ltW ecW1 j := by
    intro j hj
    have hw : windowInd ltW (([(0 : ℚ)].zip [(1 : ℚ)]).get ⟨0, by decide⟩).1
        (([(0 : ℚ)].zip [(1 : ℚ)]).get ⟨0, by decide⟩).2 = [1] := by decide
    rw [hw] at hj
    have hj1 : j = 1 := by simpa using hj
    subst hj1
    norm_num [totRate, gradF, gFun, ltW, ecW1]
  exact ⟨calc_cont_ptf_ltW_eval, hnn,
    ind_wgh_between_min_max ltW ecW1 [0] [1] [[1]] [1] [1] [1] 0
      calc_cont_ptf_ltW_eval (by decide) hnn⟩

/-- C9: with `add_noise = False` the Gaussian perturbations are identically
zero — the per-row standard deviations are zeroed, so the random draw is
multiplied away — and `_extract_isotopes` gives identical output for any
two random draws: the extraction is deterministic, non-determinism being
confined to `add_noise = True`. -/
theorem extract_isotopes_deterministic_without_noise (sd : SumData)
    (mass_rsd : ℚ) (r1 r2 : ℕ → ℕ → ℚ) :
    _extract_isotopes sd mass_rsd false r1 =
      _extract_isotopes sd mass_rsd false r2 := by
  simp [_extract_isotopes, pyBind, mul_zero, add_zero]
